import Mathlib

set_option maxRecDepth 65536

/-!
Shallow embedding of the shift-assignment engine of `src/app.py` (the active,
uncommented definitions from line 463 onward).  Spreadsheet cells are modelled
by `Cell` (a number, a string, or a missing value, i.e. pandas `NaN`), the
whole sheet by `Grid`.  Hours are exact rationals: every hour value the code
manipulates (12.5, 6, 18.5 and their small sums) is a multiple of 0.5 and is
represented exactly by Python floats, so `ℚ` is a faithful model of the
arithmetic actually performed.  Python `int` values (day numbers, day indices)
are modelled by `Int` so that expressions such as `current_day_idx - 1` keep
Python semantics.
-/

namespace ShiftAI

/-- Python whitespace test used by `str.strip()` / `str.rstrip()`; covers the
space characters that occur in spreadsheet data (ASCII whitespace and the
full-width space). -/
def isPySpace (c : Char) : Bool :=
  c == ' ' || c == '\t' || c == '\n' || c == '\r' || c == '\x0b' || c == '\x0c' || c == '　'

/-- Python `str.strip()`. -/
def pyStrip (s : String) : String :=
  String.mk (((s.data.dropWhile isPySpace).reverse.dropWhile isPySpace).reverse)

/-- Python `str.rstrip()`. -/
def pyRStrip (s : String) : String :=
  String.mk ((s.data.reverse.dropWhile isPySpace).reverse)

/-- Python `str.lower()`; lowers ASCII letters and leaves the Japanese
characters appearing in the constraints unchanged, exactly as `lower()` does
on these strings. -/
def lowerStr (s : String) : String := String.mk (s.data.map Char.toLower)

/-- Whether the first list is a leading segment of the second. -/
def listHasPre : List Char → List Char → Bool
  | [], _ => true
  | _ :: _, [] => false
  | a :: as, b :: bs => a == b && listHasPre as bs

/-- Whether the first list occurs contiguously inside the second. -/
def listHasSub (needle : List Char) : List Char → Bool
  | [] => listHasPre needle []
  | b :: bs => listHasPre needle (b :: bs) || listHasSub needle bs

/-- Python `needle in hay` on strings (substring containment). -/
def strHasSub (needle hay : String) : Bool := listHasSub needle.data hay.data

/-- Numeric value of a list of ASCII digits. -/
def digitsToNat (cs : List Char) : Nat :=
  cs.foldl (fun a c => a * 10 + (c.toNat - 48)) 0

/-- Exponent part of a Python float literal (helper for `pyFloatOfString`). -/
def pyExpo (sgn mant : ℚ) (t : List Char) : Option ℚ :=
  let p : Int × List Char :=
    match t with
    | '+' :: u => (1, u)
    | '-' :: u => (-1, u)
    | _ => (1, t)
  let ed := p.2.takeWhile Char.isDigit
  let rest := p.2.dropWhile Char.isDigit
  if ed.isEmpty || !rest.isEmpty then none
  else some (sgn * mant * (10 : ℚ) ^ (p.1 * (digitsToNat ed : Int)))

/-- Python `float(s)` on a string: `some` value on success, `none` when the
call would raise `ValueError`.  Covers sign, decimal point and exponent
literals; the special literals `inf`/`nan`, which have no rational value, are
treated as failures (no code path relevant to the claims feeds them in). -/
def pyFloatOfString (s : String) : Option ℚ :=
  let cs := (pyStrip s).data
  let p : ℚ × List Char :=
    match cs with
    | '+' :: t => (1, t)
    | '-' :: t => (-1, t)
    | _ => (1, cs)
  let ip := p.2.takeWhile Char.isDigit
  let rest1 := p.2.dropWhile Char.isDigit
  let q : List Char × List Char :=
    match rest1 with
    | '.' :: t => (t.takeWhile Char.isDigit, t.dropWhile Char.isDigit)
    | _ => ([], rest1)
  if ip.isEmpty && q.1.isEmpty then none
  else
    let mant : ℚ := (digitsToNat ip : ℚ) + (digitsToNat q.1 : ℚ) / ((10 : ℚ) ^ q.1.length)
    match q.2 with
    | [] => some (p.1 * mant)
    | 'e' :: t => pyExpo p.1 mant t
    | 'E' :: t => pyExpo p.1 mant t
    | _ => none

/-- Python `int()` applied to a float value: truncation toward zero. -/
def pyInt (q : ℚ) : Int := Int.tdiv q.num (q.den : Int)

/-- One spreadsheet cell: a number, a string, or a missing value (`NaN`). -/
inductive Cell where
  | num (q : ℚ)
  | str (s : String)
  | empty
deriving DecidableEq

/-- Python `cell == 0` under pandas semantics: true exactly for the numeric
value zero (strings and missing values never compare equal to `0`). -/
def Cell.eqZero : Cell → Bool
  | .num q => q == 0
  | _ => false

/-- pandas `pd.notna`. -/
def Cell.notna : Cell → Bool
  | .empty => false
  | _ => true

/-- Python `str()` of a rational cell value.  Only an approximation of float
`repr` is needed: no theorem in this file depends on the rendering of a
numeric cell as text (names, roles and constraints are string cells). -/
def ratStr (q : ℚ) : String :=
  if q.den = 1 then toString q.num ++ ".0" else toString q

/-- Python `str(cell)`: strings pass through, missing values render as
`"nan"`, numbers via `ratStr`. -/
def pyStrCell : Cell → String
  | .num q => ratStr q
  | .str s => s
  | .empty => "nan"

/-- The spreadsheet: a row count, a column count and the cell contents
(`df.iloc[r, c]`; positions outside the sheet are never consulted by the
embedded code thanks to the explicit bounds checks it performs). -/
structure Grid where
  rows : Nat
  cols : Nat
  cell : Nat → Nat → Cell

/-- `df.iloc[r, c] = v`. -/
def Grid.setCell (g : Grid) (r c : Nat) (v : Cell) : Grid :=
  { g with cell := fun r' c' => if r' = r ∧ c' = c then v else g.cell r' c' }

/-- Convenience builder for concrete grids: unlisted positions hold `NaN`. -/
def gridOf (rows cols : Nat) (entries : List (Nat × Nat × Cell)) : Grid :=
  ⟨rows, cols, fun r c =>
    ((entries.find? fun e => e.1 == r && e.2.1 == c).map fun e => e.2.2).getD Cell.empty⟩

/-- `CARE_ROWS_GH1 = list(range(4, 9))`. -/
def CARE_ROWS_GH1 : List Nat := List.range' 4 5

/-- `NIGHT_ROWS_GH1 = list(range(9, 16))`. -/
def NIGHT_ROWS_GH1 : List Nat := List.range' 9 7

/-- `CARE_ROWS_GH2 = list(range(19, 24))`. -/
def CARE_ROWS_GH2 : List Nat := List.range' 19 5

/-- `NIGHT_ROWS_GH2 = list(range(24, 30))`. -/
def NIGHT_ROWS_GH2 : List Nat := List.range' 24 6

/-- `DATE_HEADER_ROW = 3`. -/
def DATE_HEADER_ROW : Nat := 3

/-- `DATE_START_COL = 4`. -/
def DATE_START_COL : Nat := 4

/-- Python `float(cell)`: numbers pass through, strings are parsed, a missing
value raises (float `nan` has no rational value; every use either guards with
`pd.notna` or catches the resulting error). -/
def pyFloatOfCell : Cell → Option ℚ
  | .num q => some q
  | .str s => pyFloatOfString s
  | .empty => none

/-- `detect_date_columns`: the columns from index 4 on whose header-row value
parses to an integer day between 1 and 31.  Column labels of a header-less
pandas frame are the positions themselves, so `df.columns.get_loc` is the
identity and a column is identified with its index. -/
def detectDateColumns (g : Grid) : List Nat :=
  (List.range' DATE_START_COL (g.cols - DATE_START_COL)).filter fun c =>
    (g.cell DATE_HEADER_ROW c).notna &&
      match pyFloatOfCell (g.cell DATE_HEADER_ROW c) with
      | some q => decide (1 ≤ pyInt q) && decide (pyInt q ≤ 31)
      | none => false

/-- `get_staff_limits`: the name → hour-cap table read from rows 35–46,
columns B/C, skipping blanks, `nan` and the header text; a later row with the
same name overwrites an earlier one, as in a Python dict. -/
def getStaffLimits (g : Grid) : String → Option ℚ :=
  (List.range' 35 12).foldl
    (fun lims row =>
      if row < g.rows then
        let name := if (g.cell row 1).notna then pyStrip (pyStrCell (g.cell row 1)) else ""
        let limitVal := if (g.cell row 2).notna then g.cell row 2 else Cell.num 0
        if name != "" && name != "nan" && name != "上限(時間)" then
          let cleanName := pyRStrip name
          fun n => if n = cleanName then some ((pyFloatOfCell limitVal).getD 0) else lims n
        else lims
      else lims)
    (fun _ => none)

/-- One row-band scan of `get_staff_info`: the (name, row) pairs of the rows
inside the band whose role cell contains the given keyword
(`'世話人' in role` resp. `'夜間' in role`). -/
def staffInRows (g : Grid) (rowBand : List Nat) (roleKey : String) : List (String × Nat) :=
  rowBand.foldl
    (fun acc row =>
      if row < g.rows then
        let role := pyStrip (pyStrCell (g.cell row 0))
        let name := pyStrip (pyStrCell (g.cell row 1))
        if role != "" && name != "" && role != "nan" && name != "nan" && strHasSub roleKey role then
          acc ++ [(name, row)]
        else acc
      else acc)
    []

/-- `parse_constraints`: name → constraint string from column D, with the
Python `dict.get(name, "")` default baked in. -/
def parseConstraints (g : Grid) (staff : List (String × Nat)) : String → String :=
  staff.foldl
    (fun cons nr =>
      let c := if (g.cell nr.2 3).notna then pyStrip (pyStrCell (g.cell nr.2 3)) else ""
      fun n => if n = nr.1 then c else cons n)
    (fun _ => "")

/-- The weekday cycle `["月", ..., "日"]`. -/
def weekdays : List String := ["月", "火", "水", "木", "金", "土", "日"]

/-- `weekdays[(day_num - 1) % 7]` with Python's always-nonnegative `%`. -/
def dayOfWeek (dayNum : Int) : String := weekdays.getD ((dayNum - 1).emod 7).toNat "月"

/-- `re.findall(r'(\d+)日', s)`: the maximal digit runs immediately followed
by the day kanji, scanned left to right without overlap (fuel-indexed for
structural termination; the fuel is the remaining list length). -/
def findDaysAux : Nat → List Char → List String
  | 0, _ => []
  | _, [] => []
  | fuel + 1, c :: rest =>
    if c.isDigit then
      let run := (c :: rest).takeWhile Char.isDigit
      match (c :: rest).dropWhile Char.isDigit with
      | '日' :: t => String.mk run :: findDaysAux fuel t
      | _ => findDaysAux fuel rest
    else findDaysAux fuel rest

/-- Entry point for the day-number regex scan. -/
def findDays (s : String) : List String := findDaysAux s.data.length s.data

/-- `can_work_on_day`: the constraint evaluation, branch for branch.  The
final specific-day branch requires the string to contain `日` while not
containing any weekday character including `日` itself, so it can never be
taken; it is embedded anyway, faithful to the source. -/
def canWorkOnDay (constraint : String) (day : Int) (dayOfWk : String) : Bool :=
  if constraint == "" || constraint == "条件なし" || constraint == "nan" then true
  else
    let c := lowerStr constraint
    if (pyFloatOfString c).isSome then true
    else if strHasSub "毎週日曜" c then dayOfWk == "日"
    else if strHasSub "火曜" c && strHasSub "水曜" c then dayOfWk == "火" || dayOfWk == "水"
    else if strHasSub "月水のみ" c then dayOfWk == "月" || dayOfWk == "水"
    else if strHasSub "木曜のみ" c then dayOfWk == "木"
    else if strHasSub "月1回" c then decide (day ≤ 7)
    else if strHasSub "月2回" c then decide (day ≤ 7) || (decide (15 ≤ day) && decide (day ≤ 21))
    else if strHasSub "日" c && !(weekdays.any fun wd => strHasSub wd c) then
      let ds := findDays c
      if !ds.isEmpty && !(ds.contains (toString day)) then false else true
    else true

/-- `can_assign_shift`: cell not fixed-blocked, constraint satisfied, and no
assignment recorded for the immediately preceding day index.  `current_day_idx
- 1` is computed in `Int` so that day index 0 behaves like Python
(`-1 in history` is false). -/
def canAssignShift (g : Grid) (staffName : String) (staffRow : Nat) (dayCol : Nat)
    (dateCols : List Nat) (constraints : String → String)
    (hist : String → List Int) : Bool :=
  let currentDayIdx : Int := dateCols.indexOf dayCol
  if (g.cell staffRow dayCol).eqZero then false
  else
    let dayNum : Int :=
      match pyFloatOfCell (g.cell DATE_HEADER_ROW dayCol) with
      | some q => pyInt q
      | none => 1
    if !canWorkOnDay (constraints staffName) dayNum (dayOfWeek dayNum) then false
    else
      let h := hist staffName
      if !h.isEmpty && h.contains (currentDayIdx - 1) then false else true

/-- `count_staff_hours`: 12.5 per recorded assignment when asked for night
hours, 6 per recorded assignment when asked for care hours (the history does
not record which role produced an entry). -/
def countStaffHours (hist : String → List Int) (staffName : String) (isNightShift : Bool) : ℚ :=
  (hist staffName).foldl (fun total _ => total + (if isNightShift then (25 : ℚ) / 2 else 6)) 0

/-- Ghost record of one successful assignment: who, in which cell, on which
day index, for how many hours.  The Python code performs exactly the two
visible effects (`df.iloc[row, col] = rate` and
`assignment_history[name].append(idx)`); the log entry is appended at the
same moment and captures both. -/
structure LogEntry where
  name : String
  row : Nat
  col : Nat
  dayIdx : Int
  hours : ℚ
deriving DecidableEq

/-- Mutable state of a scheduling run: the grid being filled, the
`assignment_history` dict (name → day indices, default `[]`) and the ghost
assignment log. -/
structure OState where
  grid : Grid
  hist : String → List Int
  log : List LogEntry

/-- Body of the candidate loop of `optimize_shifts` for one staff entry:
append the entry when it passes `can_assign_shift`, is present in the limits
table, stays within its cap after adding this slot's hours, and its current
cell is non-zero and not missing. -/
def candStep (g : Grid) (constraints : String → String) (lims : String → Option ℚ)
    (hist : String → List Int) (dayCol : Nat) (dateCols : List Nat) (rate : ℚ)
    (acc : List (String × Nat × ℚ)) (nr : String × Nat) : List (String × Nat × ℚ) :=
  if canAssignShift g nr.1 nr.2 dayCol dateCols constraints hist then
    match lims nr.1 with
    | some lim =>
      if countStaffHours hist nr.1 true + countStaffHours hist nr.1 false + rate ≤ lim then
        if !(g.cell nr.2 dayCol).eqZero && (g.cell nr.2 dayCol).notna then
          acc ++ [(nr.1, nr.2, countStaffHours hist nr.1 true + countStaffHours hist nr.1 false)]
        else acc
      else acc
    | none => acc
  else acc

/-- The candidate loop of `optimize_shifts` for one slot, each candidate
carrying its `current_total_hours` value. -/
def buildCandidates (g : Grid) (staff : List (String × Nat)) (constraints : String → String)
    (lims : String → Option ℚ) (hist : String → List Int)
    (dayCol : Nat) (dateCols : List Nat) (rate : ℚ) : List (String × Nat × ℚ) :=
  staff.foldl (candStep g constraints lims hist dayCol dateCols rate) []

/-- The Python sort key `(limits.get(x[0], 1000), x[2])`. -/
def candKey (lims : String → Option ℚ) (x : String × Nat × ℚ) : ℚ × ℚ :=
  ((lims x.1).getD 1000, x.2.2)

/-- Lexicographic comparison of sort keys, i.e. the order Python's tuple
comparison induces on `(limits.get(name, 1000), hours)`. -/
def candLe (lims : String → Option ℚ) (a b : String × Nat × ℚ) : Bool :=
  decide ((candKey lims a).1 < (candKey lims b).1) ||
    ((candKey lims a).1 == (candKey lims b).1 && decide ((candKey lims a).2 ≤ (candKey lims b).2))

/-- `available_staff.sort(key=...)` followed by `available_staff[0]`, as an
`Option` (`none` when the candidate list is empty and the slot is skipped).
Python's `sort` is stable; `List.insertionSort` is a stable sort, and a
stable sort of a list under a total preorder is unique, so it produces the
very list Python produces. -/
def selectCandidate (lims : String → Option ℚ) (cands : List (String × Nat × ℚ)) :
    Option (String × Nat × ℚ) :=
  (List.insertionSort (fun a b => candLe lims a b = true) cands).head?

/-- One slot of the assignment loop of `optimize_shifts`: build the
candidates, and if any exist write `rate` into the selected staff's cell and
append the day index to their history. -/
def assignPhase (dateCols : List Nat) (lims : String → Option ℚ)
    (staff : List (String × Nat)) (constraints : String → String) (rate : ℚ)
    (dayCol : Nat) (st : OState) : OState :=
  match selectCandidate lims (buildCandidates st.grid staff constraints lims st.hist dayCol dateCols rate) with
  | none => st
  | some sel =>
    { grid := st.grid.setCell sel.2.1 dayCol (Cell.num rate)
      hist := fun n =>
        if n = sel.1 then st.hist n ++ [(dateCols.indexOf dayCol : Int)] else st.hist n
      log := st.log ++ [⟨sel.1, sel.2.1, dayCol, (dateCols.indexOf dayCol : Int), rate⟩] }

/-- One cell of the initial clearing loop: every non-zero cell of a staff row
in a date column is blanked, zero cells are kept. -/
def clearCell (g : Grid) (row dayCol : Nat) : Grid :=
  if !(g.cell row dayCol).eqZero then g.setCell row dayCol (Cell.str "") else g

/-- The initial clearing loop of `optimize_shifts`: per date column, first the
GH1 rows (night then care, in list order), then the GH2 rows. -/
def clearPass (staffGH1 staffGH2 : List (String × Nat)) (dateCols : List Nat) (g : Grid) : Grid :=
  dateCols.foldl
    (fun g dayCol =>
      staffGH2.foldl (fun g nr => clearCell g nr.2 dayCol)
        (staffGH1.foldl (fun g nr => clearCell g nr.2 dayCol) g))
    g

/-- The roster data `optimize_shifts` extracts from the grid before
scheduling: the four staff lists, the limits table and the per-list
constraint dicts. -/
structure Roster where
  nightGH1 : List (String × Nat)
  careGH1 : List (String × Nat)
  nightGH2 : List (String × Nat)
  careGH2 : List (String × Nat)
  lims : String → Option ℚ
  nconsGH1 : String → String
  cconsGH1 : String → String
  nconsGH2 : String → String
  cconsGH2 : String → String

/-- `get_staff_info` plus the four `parse_constraints` calls. -/
def rosterOf (g : Grid) : Roster :=
  { nightGH1 := staffInRows g NIGHT_ROWS_GH1 "夜間"
    careGH1 := staffInRows g CARE_ROWS_GH1 "世話人"
    nightGH2 := staffInRows g NIGHT_ROWS_GH2 "夜間"
    careGH2 := staffInRows g CARE_ROWS_GH2 "世話人"
    lims := getStaffLimits g
    nconsGH1 := parseConstraints g (staffInRows g NIGHT_ROWS_GH1 "夜間")
    cconsGH1 := parseConstraints g (staffInRows g CARE_ROWS_GH1 "世話人")
    nconsGH2 := parseConstraints g (staffInRows g NIGHT_ROWS_GH2 "夜間")
    cconsGH2 := parseConstraints g (staffInRows g CARE_ROWS_GH2 "世話人") }

/-- One date column of the assignment loop: GH1 night, GH1 care, GH2 night,
GH2 care, in source order, each phase seeing the state the previous one left. -/
def dayStep (R : Roster) (dateCols : List Nat) (st : OState) (dayCol : Nat) : OState :=
  assignPhase dateCols R.lims R.careGH2 R.cconsGH2 6 dayCol
    (assignPhase dateCols R.lims R.nightGH2 R.nconsGH2 ((25 : ℚ) / 2) dayCol
      (assignPhase dateCols R.lims R.careGH1 R.cconsGH1 6 dayCol
        (assignPhase dateCols R.lims R.nightGH1 R.nconsGH1 ((25 : ℚ) / 2) dayCol st)))

/-- Output of `optimize_shifts`: the filled grid, the assignment history, the
ghost log and the per-staff totals computed for the summary. -/
structure OResult where
  grid : Grid
  hist : String → List Int
  log : List LogEntry
  totals : String → ℚ

/-- Core of `optimize_shifts` once the date columns are known: extract the
roster, clear the non-blocked cells of the staff rows, then run the
day-by-day assignment loop. -/
def runSchedule (g : Grid) (dateCols : List Nat) : OState :=
  dateCols.foldl (fun st dayCol => dayStep (rosterOf g) dateCols st dayCol)
    ⟨clearPass ((rosterOf g).nightGH1 ++ (rosterOf g).careGH1)
        ((rosterOf g).nightGH2 ++ (rosterOf g).careGH2) dateCols g,
      fun _ => [], []⟩

/-- `optimize_shifts`: detect the date columns (the `ValueError` raised when
none are found is modelled by `none`), run the schedule and aggregate the
per-staff totals for the summary. -/
def optimizeShifts (g : Grid) : Option OResult :=
  let dateCols := detectDateColumns g
  if dateCols.isEmpty then none
  else
    let stF := runSchedule g dateCols
    some
      { grid := stF.grid
        hist := stF.hist
        log := stF.log
        totals := fun n => countStaffHours stF.hist n true + countStaffHours stF.hist n false }

/-- Grid of a produced result (the input grid when the run raised instead of
producing one). -/
def resGrid (o : Option OResult) (g : Grid) : Grid :=
  match o with
  | some R => R.grid
  | none => g

/-- History of a produced result (empty when no result was produced). -/
def resHist (o : Option OResult) : String → List Int :=
  match o with
  | some R => R.hist
  | none => fun _ => []

/-- Assignment log of a produced result (empty when no result was produced). -/
def resLog (o : Option OResult) : List LogEntry :=
  match o with
  | some R => R.log
  | none => []

/-- Sum of the hours of one staff member's assignments, each counted at the
rate it was made with (12.5 for a night slot, 6 for a care slot). -/
def actualHours (log : List LogEntry) (staffName : String) : ℚ :=
  ((log.filter fun e => e.name == staffName).map fun e => e.hours).sum

/-- The rows the scheduler recognizes as staff rows: the rows of the four
extracted staff lists. -/
def staffRowsOf (g : Grid) : List Nat :=
  (staffInRows g NIGHT_ROWS_GH1 "夜間" ++ staffInRows g CARE_ROWS_GH1 "世話人" ++
    staffInRows g NIGHT_ROWS_GH2 "夜間" ++ staffInRows g CARE_ROWS_GH2 "世話人").map (·.2)

/-- Names of a staff list. -/
def namesOf (l : List (String × Nat)) : List String := l.map (·.1)

/-- Boolean disjointness of two name lists. -/
def listsDisjoint (a b : List String) : Bool := a.all fun x => !b.contains x

/-- No staff name occurs in two different role/site lists of the grid. -/
def namesDisjoint (g : Grid) : Bool :=
  listsDisjoint (namesOf (rosterOf g).nightGH1) (namesOf (rosterOf g).careGH1) &&
    listsDisjoint (namesOf (rosterOf g).nightGH1) (namesOf (rosterOf g).nightGH2) &&
    listsDisjoint (namesOf (rosterOf g).nightGH1) (namesOf (rosterOf g).careGH2) &&
    listsDisjoint (namesOf (rosterOf g).careGH1) (namesOf (rosterOf g).nightGH2) &&
    listsDisjoint (namesOf (rosterOf g).careGH1) (namesOf (rosterOf g).careGH2) &&
    listsDisjoint (namesOf (rosterOf g).nightGH2) (namesOf (rosterOf g).careGH2)

/-- `random.random()` calls made while decorating a candidate list with the
sort keys `(x[2], random.random())`, in list order, consuming one stream
value per candidate (used only by `assign_shifts_for_group`). -/
def sampleKeys (rand : Nat → ℚ) (ctr : Nat) (xs : List (String × Nat × ℚ)) :
    List ((String × Nat × ℚ) × ℚ) × Nat :=
  xs.foldl (fun p x => (p.1 ++ [(x, rand p.2)], p.2 + 1)) ([], ctr)

/-- Lexicographic comparison of the `(hours, random)` keys of
`assign_shifts_for_group`. -/
def groupLe (a b : (String × Nat × ℚ) × ℚ) : Bool :=
  decide (a.1.2.2 < b.1.2.2) || (a.1.2.2 == b.1.2.2 && decide (a.2 ≤ b.2))

/-- One slot of `assign_shifts_for_group` (night or care): pick by
`(hours, random)` and blank every non-selected cell of the list
unconditionally — including fixed-blocked cells, unlike `optimize_shifts`. -/
def assignGroupSlot (rand : Nat → ℚ) (dateCols : List Nat) (lims : String → Option ℚ)
    (staff : List (String × Nat)) (constraints : String → String) (rate : ℚ)
    (dayCol : Nat) (gh : Grid × (String → List Int) × Nat) :
    Grid × (String → List Int) × Nat :=
  let cands := buildCandidates gh.1 staff constraints lims gh.2.1 dayCol dateCols rate
  let p := sampleKeys rand gh.2.2 cands
  match (List.insertionSort (fun a b => groupLe a b = true) p.1).head? with
  | none =>
    (staff.foldl (fun g nr => g.setCell nr.2 dayCol (Cell.str "")) gh.1, gh.2.1, p.2)
  | some sel =>
    let currentDayIdx : Int := dateCols.indexOf dayCol
    (staff.foldl (fun g nr => if nr.2 ≠ sel.1.2.1 then g.setCell nr.2 dayCol (Cell.str "") else g)
        gh.1,
      fun n => if n = sel.1.1 then gh.2.1 n ++ [currentDayIdx] else gh.2.1 n,
      p.2)

/-- `assign_shifts_for_group`: the randomized per-group scheduler.  The active
`optimize_shifts` never calls it, so this function is dead code in the
scheduling path; it is embedded because it is the only place the `random`
module is consumed. -/
def assignShiftsForGroup (rand : Nat → ℚ) (g : Grid) (dateCols : List Nat)
    (nightStaff careStaff : List (String × Nat)) (ncons ccons : String → String)
    (hist : String → List Int) (lims : String → Option ℚ) (ctr : Nat) :
    Grid × (String → List Int) × Nat :=
  dateCols.foldl
    (fun gh dayCol =>
      let gh1 := assignGroupSlot rand dateCols lims nightStaff ncons ((25 : ℚ) / 2) dayCol gh
      assignGroupSlot rand dateCols lims careStaff ccons 6 dayCol gh1)
    (g, hist, ctr)

/-- `optimize_shifts` with the process's random stream made explicit.  The
body of the active `optimize_shifts` contains no call into `random` and never
invokes `assign_shifts_for_group` (the only randomized function in the file),
so a run consumes nothing from the stream. -/
def optimizeShiftsRand (_rand : Nat → ℚ) (g : Grid) : Option OResult := optimizeShifts g

/-- Roster whose staff member `X` appears both as GH1 night staff (row 9) and
as GH1 care staff (row 4), with one date column (day 1) and a generous cap. -/
def G1 : Grid :=
  gridOf 36 5
    [(3, 4, .num 1),
     (4, 0, .str "世話人"), (4, 1, .str "X"), (4, 4, .num 1),
     (9, 0, .str "夜間"), (9, 1, .str "X"), (9, 4, .num 1),
     (35, 1, .str "X"), (35, 2, .num 100)]

/-- Roster where `X` (night row 9, care row 4) can take the night slot of day
1 and the care slot of day 3 — two days after the night duty — with the cells
in between fixed-blocked. -/
def G2 : Grid :=
  gridOf 36 7
    [(3, 4, .num 1), (3, 5, .num 2), (3, 6, .num 3),
     (4, 0, .str "世話人"), (4, 1, .str "X"), (4, 4, .num 0), (4, 5, .num 0), (4, 6, .num 1),
     (9, 0, .str "夜間"), (9, 1, .str "X"), (9, 4, .num 1), (9, 5, .num 0), (9, 6, .num 0),
     (35, 1, .str "X"), (35, 2, .num 100)]

/-- Roster with a single night staff `N` and two days; after working day 1,
`N` is excluded from day 2 only by the consecutive-day rule. -/
def G3 : Grid :=
  gridOf 36 6
    [(3, 4, .num 1), (3, 5, .num 2),
     (9, 0, .str "夜間"), (9, 1, .str "N"), (9, 4, .num 1), (9, 5, .num 1),
     (35, 1, .str "N"), (35, 2, .num 100)]

/-- Roster with night staff `A` (cap 40, free only on day 5) and `B` (cap 60,
free every day): by day 5, `B` has accumulated hours while `A` has none. -/
def G5 : Grid :=
  gridOf 37 9
    [(3, 4, .num 1), (3, 5, .num 2), (3, 6, .num 3), (3, 7, .num 4), (3, 8, .num 5),
     (9, 0, .str "夜間"), (9, 1, .str "A"),
     (9, 4, .num 0), (9, 5, .num 0), (9, 6, .num 0), (9, 7, .num 0), (9, 8, .num 1),
     (10, 0, .str "夜間"), (10, 1, .str "B"),
     (10, 4, .num 1), (10, 5, .num 1), (10, 6, .num 1), (10, 7, .num 1), (10, 8, .num 1),
     (35, 1, .str "A"), (35, 2, .num 40),
     (36, 1, .str "B"), (36, 2, .num 60)]

/-- Roster whose night staff `Y` satisfies every eligibility condition but has
no row in the hour-limits table (which only lists `X`). -/
def G9 : Grid :=
  gridOf 36 5
    [(3, 4, .num 1),
     (9, 0, .str "夜間"), (9, 1, .str "Y"), (9, 4, .num 1),
     (35, 1, .str "X"), (35, 2, .num 100)]

/-- The `current_total_hours` value the scheduler computes for a staff member:
night-rate plus care-rate hours over all recorded assignments, i.e. 18.5 per
history entry — an overcount of the hours actually assigned. -/
def overHours (hist : String → List Int) (nm : String) : ℚ :=
  countStaffHours hist nm true + countStaffHours hist nm false

/-- Cap invariant carried through the scheduling loop: the real assigned
hours never exceed the overcounted ledger value, every staff appearing in the
log is in the limits table with real hours within their cap, and staff absent
from the limits table have no history and no log entries. -/
def InvCap (lims : String → Option ℚ) (st : OState) : Prop :=
  ∀ nm : String,
    actualHours st.log nm ≤ overHours st.hist nm ∧
    ((∃ e ∈ st.log, e.name = nm) → ∃ q, lims nm = some q ∧ actualHours st.log nm ≤ q) ∧
    (lims nm = none → st.hist nm = [] ∧ ∀ e ∈ st.log, e.name ≠ nm)

/-- Grid-level fixed-block invariant: cells that were numerically zero in the
original grid still hold their original value. -/
def GridBlock (g0 g : Grid) : Prop :=
  ∀ r c : Nat, (g0.cell r c).eqZero = true → g.cell r c = g0.cell r c

/-- Fixed-block invariant for the whole state: blocked cells are untouched
and no assignment was logged into one. -/
def InvBlock (g0 : Grid) (st : OState) : Prop :=
  GridBlock g0 st.grid ∧
    ∀ e ∈ st.log, (g0.cell e.row e.col).eqZero = false

/-- Grid-level frame invariant: dimensions are unchanged and every cell
outside the given row set or outside the given column set holds its original
value. -/
def GridFrame (g0 : Grid) (rowSet colSet : List Nat) (g : Grid) : Prop :=
  g.rows = g0.rows ∧ g.cols = g0.cols ∧
    ∀ r c : Nat, r ∉ rowSet ∨ c ∉ colSet → g.cell r c = g0.cell r c

/-! ### Generic lemmas about the embedded operations -/

theorem foldl_preserve {α β : Type _} (P : β → Prop) (l : List α) (f : β → α → β)
    (h : ∀ s a, a ∈ l → P s → P (f s a)) (s0 : β) (h0 : P s0) : P (l.foldl f s0) := by
  induction l generalizing s0 with
  | nil => exact h0
  | cons a t ih =>
    exact ih (fun s b hb hs => h s b (List.mem_cons_of_mem _ hb) hs) _
      (h s0 a (List.mem_cons_self _ _) h0)

theorem Grid.setCell_cell (g : Grid) (r c : Nat) (v : Cell) (r' c' : Nat) :
    (g.setCell r c v).cell r' c' = if r' = r ∧ c' = c then v else g.cell r' c' := rfl

theorem Grid.setCell_rows (g : Grid) (r c : Nat) (v : Cell) : (g.setCell r c v).rows = g.rows :=
  rfl

theorem Grid.setCell_cols (g : Grid) (r c : Nat) (v : Cell) : (g.setCell r c v).cols = g.cols :=
  rfl

theorem foldl_add_const (l : List Int) (c a : ℚ) :
    l.foldl (fun t _ => t + c) a = a + l.length * c := by
  induction l generalizing a with
  | nil => simp
  | cons x t ih =>
    simp only [List.foldl_cons, ih, List.length_cons]
    push_cast
    ring

theorem countStaffHours_eq (hist : String → List Int) (nm : String) (b : Bool) :
    countStaffHours hist nm b = (hist nm).length * (if b then (25 : ℚ) / 2 else 6) := by
  unfold countStaffHours
  rw [foldl_add_const]
  simp

theorem overHours_eq (hist : String → List Int) (nm : String) :
    overHours hist nm = (hist nm).length * (37 / 2 : ℚ) := by
  unfold overHours
  rw [countStaffHours_eq, countStaffHours_eq]
  norm_num
  ring

theorem overHours_nonneg (hist : String → List Int) (nm : String) : 0 ≤ overHours hist nm := by
  rw [overHours_eq]
  positivity

theorem actualHours_nil (nm : String) : actualHours [] nm = 0 := rfl

theorem actualHours_append (log : List LogEntry) (e : LogEntry) (nm : String) :
    actualHours (log ++ [e]) nm = actualHours log nm + (if e.name = nm then e.hours else 0) := by
  unfold actualHours
  rw [List.filter_append, List.map_append, List.sum_append]
  by_cases h : e.name = nm <;> simp [h]

theorem candLe_refl (lims : String → Option ℚ) (a : String × Nat × ℚ) : candLe lims a a = true := by
  simp [candLe]

theorem candLe_trans (lims : String → Option ℚ) {a b c : String × Nat × ℚ}
    (h1 : candLe lims a b = true) (h2 : candLe lims b c = true) : candLe lims a c = true := by
  simp only [candLe, Bool.or_eq_true, decide_eq_true_eq, Bool.and_eq_true, beq_iff_eq] at h1 h2 ⊢
  rcases h1 with h1 | ⟨e1, le1⟩ <;> rcases h2 with h2 | ⟨e2, le2⟩
  · exact Or.inl (h1.trans h2)
  · exact Or.inl (lt_of_lt_of_le h1 (le_of_eq e2))
  · exact Or.inl (lt_of_le_of_lt (le_of_eq e1) h2)
  · exact Or.inr ⟨e1.trans e2, le1.trans le2⟩

theorem candLe_total (lims : String → Option ℚ) (a b : String × Nat × ℚ) :
    candLe lims a b = true ∨ candLe lims b a = true := by
  simp only [candLe, Bool.or_eq_true, decide_eq_true_eq, Bool.and_eq_true, beq_iff_eq]
  rcases lt_trichotomy (candKey lims a).1 (candKey lims b).1 with h | h | h
  · exact Or.inl (Or.inl h)
  · rcases le_total (candKey lims a).2 (candKey lims b).2 with h2 | h2
    · exact Or.inl (Or.inr ⟨h, h2⟩)
    · exact Or.inr (Or.inr ⟨h.symm, h2⟩)
  · exact Or.inr (Or.inl h)

theorem selectCandidate_mem {lims : String → Option ℚ} {cands : List (String × Nat × ℚ)}
    {sel : String × Nat × ℚ} (h : selectCandidate lims cands = some sel) : sel ∈ cands := by
  unfold selectCandidate at h
  cases hs : List.insertionSort (fun a b => candLe lims a b = true) cands with
  | nil => rw [hs] at h; cases h
  | cons y t =>
    rw [hs] at h
    have hy : y ∈ List.insertionSort (fun a b => candLe lims a b = true) cands := by
      rw [hs]; exact List.mem_cons_self _ _
    have hsel : y = sel := by injection h
    rw [← hsel]
    exact (List.mem_insertionSort _).mp hy

theorem selectCandidate_min {lims : String → Option ℚ} {cands : List (String × Nat × ℚ)}
    {sel : String × Nat × ℚ} (h : selectCandidate lims cands = some sel) :
    ∀ x ∈ cands, candLe lims sel x = true := by
  intro x hx
  unfold selectCandidate at h
  cases hs : List.insertionSort (fun a b => candLe lims a b = true) cands with
  | nil => rw [hs] at h; cases h
  | cons y t =>
    rw [hs] at h
    injection h with h
    subst h
    have hsort : List.Sorted (fun a b => candLe lims a b = true)
        (List.insertionSort (fun a b => candLe lims a b = true) cands) := by
      letI : IsTrans (String × Nat × ℚ) (fun a b => candLe lims a b = true) :=
        ⟨fun _ _ _ hab hbc => candLe_trans lims hab hbc⟩
      letI : IsTotal (String × Nat × ℚ) (fun a b => candLe lims a b = true) :=
        ⟨fun a b => candLe_total lims a b⟩
      exact List.sorted_insertionSort _ _
    rw [hs] at hsort
    have hx' : x ∈ y :: t := by
      rw [← hs]
      exact (List.mem_insertionSort _).mpr hx
    rcases List.mem_cons.mp hx' with rfl | hxt
    · exact candLe_refl lims _
    · exact (List.sorted_cons.mp hsort).1 x hxt

theorem candStep_mem {g : Grid} {constraints : String → String} {lims : String → Option ℚ}
    {hist : String → List Int} {dayCol : Nat} {dateCols : List Nat} {rate : ℚ}
    {acc : List (String × Nat × ℚ)} {nr : String × Nat} {y : String × Nat × ℚ}
    (hy : y ∈ candStep g constraints lims hist dayCol dateCols rate acc nr) :
    y ∈ acc ∨
      (y = (nr.1, nr.2, overHours hist nr.1) ∧
        canAssignShift g nr.1 nr.2 dayCol dateCols constraints hist = true ∧
        (∃ lim, lims nr.1 = some lim ∧ overHours hist nr.1 + rate ≤ lim) ∧
        (g.cell nr.2 dayCol).eqZero = false ∧ (g.cell nr.2 dayCol).notna = true) := by
  unfold candStep at hy
  split at hy
  case isFalse => exact Or.inl hy
  case isTrue hca =>
    split at hy
    case h_2 => exact Or.inl hy
    case h_1 lim hlim =>
      split at hy
      case isFalse => exact Or.inl hy
      case isTrue hle =>
        split at hy
        case isFalse => exact Or.inl hy
        case isTrue hcell =>
          rcases List.mem_append.mp hy with hy | hy
          · exact Or.inl hy
          · rw [List.mem_singleton] at hy
            rw [Bool.and_eq_true] at hcell
            obtain ⟨hz, hn⟩ := hcell
            rw [Bool.not_eq_true'] at hz
            exact Or.inr ⟨hy, hca, ⟨lim, hlim, hle⟩, hz, hn⟩

theorem buildCandidates_mem {g : Grid} {staff : List (String × Nat)}
    {constraints : String → String} {lims : String → Option ℚ}
    {hist : String → List Int} {dayCol : Nat} {dateCols : List Nat} {rate : ℚ}
    {x : String × Nat × ℚ}
    (hx : x ∈ buildCandidates g staff constraints lims hist dayCol dateCols rate) :
    (x.1, x.2.1) ∈ staff ∧
      x = (x.1, x.2.1, overHours hist x.1) ∧
      canAssignShift g x.1 x.2.1 dayCol dateCols constraints hist = true ∧
      (∃ lim, lims x.1 = some lim ∧ overHours hist x.1 + rate ≤ lim) ∧
      (g.cell x.2.1 dayCol).eqZero = false ∧ (g.cell x.2.1 dayCol).notna = true := by
  have aux : ∀ (staff' : List (String × Nat)) (acc : List (String × Nat × ℚ)),
      x ∈ staff'.foldl (candStep g constraints lims hist dayCol dateCols rate) acc →
      x ∈ acc ∨
        ∃ nr ∈ staff', x = (nr.1, nr.2, overHours hist nr.1) ∧
          canAssignShift g nr.1 nr.2 dayCol dateCols constraints hist = true ∧
          (∃ lim, lims nr.1 = some lim ∧ overHours hist nr.1 + rate ≤ lim) ∧
          (g.cell nr.2 dayCol).eqZero = false ∧ (g.cell nr.2 dayCol).notna = true := by
    intro staff'
    induction staff' with
    | nil => intro acc h; exact Or.inl h
    | cons nr rest ih =>
      intro acc h
      rw [List.foldl_cons] at h
      rcases ih _ h with h' | ⟨nr', hnr', hrest⟩
      · rcases candStep_mem h' with h'' | ⟨he, hca, hlim, hz, hn⟩
        · exact Or.inl h''
        · exact Or.inr ⟨nr, List.mem_cons_self _ _, he, hca, hlim, hz, hn⟩
      · exact Or.inr ⟨nr', List.mem_cons_of_mem _ hnr', hrest⟩
  rcases aux staff [] hx with h | ⟨nr, hnr, he, hca, hlim, hz, hn⟩
  · cases h
  · have h1 : x.1 = nr.1 := by rw [he]
    have h21 : x.2.1 = nr.2 := by rw [he]
    rw [h1, h21]
    exact ⟨hnr, he, hca, hlim, hz, hn⟩

theorem assignPhase_cases (dateCols : List Nat) (lims : String → Option ℚ)
    (staff : List (String × Nat)) (constraints : String → String) (rate : ℚ)
    (dayCol : Nat) (st : OState) :
    assignPhase dateCols lims staff constraints rate dayCol st = st ∨
    ∃ sel ∈ buildCandidates st.grid staff constraints lims st.hist dayCol dateCols rate,
      assignPhase dateCols lims staff constraints rate dayCol st =
        { grid := st.grid.setCell sel.2.1 dayCol (Cell.num rate)
          hist := fun n =>
            if n = sel.1 then st.hist n ++ [(dateCols.indexOf dayCol : Int)] else st.hist n
          log := st.log ++ [⟨sel.1, sel.2.1, dayCol, (dateCols.indexOf dayCol : Int), rate⟩] } := by
  unfold assignPhase
  cases hsel : selectCandidate lims
      (buildCandidates st.grid staff constraints lims st.hist dayCol dateCols rate) with
  | none => exact Or.inl rfl
  | some sel => exact Or.inr ⟨sel, selectCandidate_mem hsel, rfl⟩

theorem overHours_congr (hist₁ hist₂ : String → List Int) (nm : String)
    (h : hist₁ nm = hist₂ nm) : overHours hist₁ nm = overHours hist₂ nm := by
  rw [overHours_eq, overHours_eq, h]

theorem overHours_append (hist hist' : String → List Int) (nm : String) (i : Int)
    (h : hist' nm = hist nm ++ [i]) :
    overHours hist' nm = overHours hist nm + 37 / 2 := by
  rw [overHours_eq, overHours_eq, h]
  simp only [List.length_append, List.length_singleton]
  push_cast
  ring

theorem assignPhase_invCap (dateCols : List Nat) (lims : String → Option ℚ)
    (staff : List (String × Nat)) (constraints : String → String) (rate : ℚ)
    (dayCol : Nat) (st : OState) (hr : rate ≤ 37 / 2) (h : InvCap lims st) :
    InvCap lims (assignPhase dateCols lims staff constraints rate dayCol st) := by
  rcases assignPhase_cases dateCols lims staff constraints rate dayCol st with heq | ⟨sel, hsel, heq⟩
  · rw [heq]; exact h
  · rw [heq]
    obtain ⟨-, -, -, ⟨lim, hlim, hle⟩, -, -⟩ := buildCandidates_mem hsel
    intro nm
    obtain ⟨i1, i2, i3⟩ := h nm
    by_cases hnm : sel.1 = nm
    · have hach :
          actualHours
            (st.log ++ [⟨sel.1, sel.2.1, dayCol, (dateCols.indexOf dayCol : Int), rate⟩]) nm
          = actualHours st.log nm + rate := by
        rw [actualHours_append]
        simp [hnm]
      have hhist :
          (fun n =>
            if n = sel.1 then st.hist n ++ [(dateCols.indexOf dayCol : Int)] else st.hist n) nm
          = st.hist nm ++ [(dateCols.indexOf dayCol : Int)] := by
        simp [hnm.symm]
      have hov := overHours_append st.hist
        (fun n =>
          if n = sel.1 then st.hist n ++ [(dateCols.indexOf dayCol : Int)] else st.hist n)
        nm _ hhist
      refine ⟨?_, ?_, ?_⟩
      · show actualHours _ nm ≤ overHours _ nm
        rw [hach, hov]
        exact add_le_add i1 hr
      · intro _
        rw [hnm] at hle
        refine ⟨lim, by rw [← hnm]; exact hlim, ?_⟩
        show actualHours _ nm ≤ lim
        rw [hach]
        have : actualHours st.log nm + rate ≤ overHours st.hist nm + rate :=
          add_le_add_right i1 rate
        exact this.trans hle
      · intro hnone
        rw [← hnm, hlim] at hnone
        cases hnone
    · have hne : ¬ nm = sel.1 := fun hh => hnm hh.symm
      have hach :
          actualHours
            (st.log ++ [⟨sel.1, sel.2.1, dayCol, (dateCols.indexOf dayCol : Int), rate⟩]) nm
          = actualHours st.log nm := by
        rw [actualHours_append]
        simp [hnm]
      have hhist :
          (fun n =>
            if n = sel.1 then st.hist n ++ [(dateCols.indexOf dayCol : Int)] else st.hist n) nm
          = st.hist nm := by
        simp [hne]
      refine ⟨?_, ?_, ?_⟩
      · show actualHours _ nm ≤ overHours _ nm
        rw [hach,
          overHours_congr
            (fun n =>
              if n = sel.1 then st.hist n ++ [(dateCols.indexOf dayCol : Int)] else st.hist n)
            st.hist nm hhist]
        exact i1
      · rintro ⟨e, he, hen⟩
        rcases List.mem_append.mp he with he | he
        · obtain ⟨q, hq, hq2⟩ := i2 ⟨e, he, hen⟩
          refine ⟨q, hq, ?_⟩
          show actualHours _ nm ≤ q
          rw [hach]
          exact hq2
        · rw [List.mem_singleton] at he
          subst he
          exact absurd hen hnm
      · intro hnone
        obtain ⟨h31, h32⟩ := i3 hnone
        refine ⟨hhist.trans h31, ?_⟩
        intro e he
        rcases List.mem_append.mp he with he | he
        · exact h32 e he
        · rw [List.mem_singleton] at he
          subst he
          exact hnm

theorem dayStep_invCap (R : Roster) (dateCols : List Nat) (st : OState) (dayCol : Nat)
    (h : InvCap R.lims st) : InvCap R.lims (dayStep R dateCols st dayCol) := by
  unfold dayStep
  apply assignPhase_invCap _ _ _ _ _ _ _ (by norm_num)
  apply assignPhase_invCap _ _ _ _ _ _ _ (by norm_num)
  apply assignPhase_invCap _ _ _ _ _ _ _ (by norm_num)
  exact assignPhase_invCap _ _ _ _ _ _ _ (by norm_num) h

theorem runSchedule_invCap (g : Grid) (dateCols : List Nat) :
    InvCap (getStaffLimits g) (runSchedule g dateCols) := by
  unfold runSchedule
  refine foldl_preserve _ _ _ ?_ _ ?_
  · intro st dayCol _ hst
    exact dayStep_invCap (rosterOf g) dateCols st dayCol hst
  · intro nm
    refine ⟨?_, ?_, ?_⟩
    · rw [actualHours_nil]; exact overHours_nonneg _ _
    · rintro ⟨e, he, -⟩; cases he
    · intro _; exact ⟨rfl, fun e he => absurd he (List.not_mem_nil e)⟩

theorem clearCell_gridBlock (g0 g : Grid) (row dayCol : Nat) (h : GridBlock g0 g) :
    GridBlock g0 (clearCell g row dayCol) := by
  intro r c hz
  unfold clearCell
  split
  case isTrue hcond =>
    rw [Grid.setCell_cell]
    split
    case isTrue hrc =>
      exfalso
      have he : g.cell row dayCol = g0.cell row dayCol := by
        rw [← hrc.1, ← hrc.2]; exact h r c hz
      have hz' : (g0.cell row dayCol).eqZero = true := by
        rw [← hrc.1, ← hrc.2]; exact hz
      rw [he, hz'] at hcond
      cases hcond
    case isFalse => exact h r c hz
  case isFalse => exact h r c hz

theorem clearPass_gridBlock (g0 : Grid) (s1 s2 : List (String × Nat)) (dateCols : List Nat)
    (g : Grid) (h : GridBlock g0 g) : GridBlock g0 (clearPass s1 s2 dateCols g) := by
  unfold clearPass
  refine foldl_preserve _ _ _ ?_ _ h
  intro gg dayCol _ hgg
  refine foldl_preserve _ _ _ ?_ _ (foldl_preserve _ _ _ ?_ _ hgg)
  · intro gg' nr _ hgg'
    exact clearCell_gridBlock g0 gg' nr.2 dayCol hgg'
  · intro gg' nr _ hgg'
    exact clearCell_gridBlock g0 gg' nr.2 dayCol hgg'

theorem assignPhase_invBlock (g0 : Grid) (dateCols : List Nat) (lims : String → Option ℚ)
    (staff : List (String × Nat)) (constraints : String → String) (rate : ℚ)
    (dayCol : Nat) (st : OState) (h : InvBlock g0 st) :
    InvBlock g0 (assignPhase dateCols lims staff constraints rate dayCol st) := by
  rcases assignPhase_cases dateCols lims staff constraints rate dayCol st with heq | ⟨sel, hsel, heq⟩
  · rw [heq]; exact h
  · rw [heq]
    obtain ⟨-, -, -, -, hz, -⟩ := buildCandidates_mem hsel
    obtain ⟨hb, hl⟩ := h
    have hg0 : (g0.cell sel.2.1 dayCol).eqZero = false := by
      cases hE : (g0.cell sel.2.1 dayCol).eqZero with
      | false => rfl
      | true =>
        rw [hb sel.2.1 dayCol hE, hE] at hz
        cases hz
    constructor
    · intro r c hzc
      show (st.grid.setCell sel.2.1 dayCol (Cell.num rate)).cell r c = g0.cell r c
      rw [Grid.setCell_cell]
      split
      case isTrue hrc =>
        exfalso
        have : (g0.cell sel.2.1 dayCol).eqZero = true := by
          rw [← hrc.1, ← hrc.2]; exact hzc
        rw [this] at hg0
        cases hg0
      case isFalse => exact hb r c hzc
    · intro e he
      rcases List.mem_append.mp he with he | he
      · exact hl e he
      · rw [List.mem_singleton] at he
        subst he
        exact hg0

theorem dayStep_invBlock (g0 : Grid) (R : Roster) (dateCols : List Nat) (st : OState)
    (dayCol : Nat) (h : InvBlock g0 st) : InvBlock g0 (dayStep R dateCols st dayCol) := by
  unfold dayStep
  exact assignPhase_invBlock _ _ _ _ _ _ _ _
    (assignPhase_invBlock _ _ _ _ _ _ _ _
      (assignPhase_invBlock _ _ _ _ _ _ _ _
        (assignPhase_invBlock _ _ _ _ _ _ _ _ h)))

theorem runSchedule_invBlock (g : Grid) (dateCols : List Nat) :
    InvBlock g (runSchedule g dateCols) := by
  unfold runSchedule
  refine foldl_preserve _ _ _ ?_ _ ?_
  · intro st dayCol _ hst
    exact dayStep_invBlock g (rosterOf g) dateCols st dayCol hst
  · constructor
    · exact clearPass_gridBlock g _ _ dateCols g (fun r c _ => rfl)
    · intro e he
      cases he

theorem clearCell_gridFrame (g0 : Grid) (rowSet colSet : List Nat) (g : Grid)
    (row dayCol : Nat) (hrow : row ∈ rowSet) (hcol : dayCol ∈ colSet)
    (h : GridFrame g0 rowSet colSet g) : GridFrame g0 rowSet colSet (clearCell g row dayCol) := by
  obtain ⟨h1, h2, h3⟩ := h
  unfold clearCell
  split
  case isTrue =>
    refine ⟨?_, ?_, ?_⟩
    · rw [Grid.setCell_rows]; exact h1
    · rw [Grid.setCell_cols]; exact h2
    · intro r c hout
      rw [Grid.setCell_cell]
      split
      case isTrue hrc =>
        exfalso
        rcases hout with hout | hout
        · exact hout (by rw [hrc.1]; exact hrow)
        · exact hout (by rw [hrc.2]; exact hcol)
      case isFalse => exact h3 r c hout
  case isFalse => exact ⟨h1, h2, h3⟩

theorem clearPass_gridFrame (g0 : Grid) (rowSet colSet : List Nat)
    (s1 s2 : List (String × Nat)) (dateCols : List Nat) (g : Grid)
    (hs1 : ∀ nr ∈ s1, nr.2 ∈ rowSet) (hs2 : ∀ nr ∈ s2, nr.2 ∈ rowSet)
    (hdc : ∀ c ∈ dateCols, c ∈ colSet) (h : GridFrame g0 rowSet colSet g) :
    GridFrame g0 rowSet colSet (clearPass s1 s2 dateCols g) := by
  unfold clearPass
  refine foldl_preserve _ _ _ ?_ _ h
  intro gg dayCol hdcmem hgg
  refine foldl_preserve _ _ _ ?_ _ (foldl_preserve _ _ _ ?_ _ hgg)
  · intro gg' nr hnr hgg'
    exact clearCell_gridFrame g0 rowSet colSet gg' nr.2 dayCol (hs2 nr hnr)
      (hdc dayCol hdcmem) hgg'
  · intro gg' nr hnr hgg'
    exact clearCell_gridFrame g0 rowSet colSet gg' nr.2 dayCol (hs1 nr hnr)
      (hdc dayCol hdcmem) hgg'

theorem assignPhase_gridFrame (g0 : Grid) (rowSet colSet : List Nat)
    (dateCols : List Nat) (lims : String → Option ℚ) (staff : List (String × Nat))
    (constraints : String → String) (rate : ℚ) (dayCol : Nat) (st : OState)
    (hstaff : ∀ nr ∈ staff, nr.2 ∈ rowSet) (hcol : dayCol ∈ colSet)
    (h : GridFrame g0 rowSet colSet st.grid) :
    GridFrame g0 rowSet colSet (assignPhase dateCols lims staff constraints rate dayCol st).grid := by
  rcases assignPhase_cases dateCols lims staff constraints rate dayCol st with heq | ⟨sel, hsel, heq⟩
  · rw [heq]; exact h
  · rw [heq]
    obtain ⟨hmem, -, -, -, -, -⟩ := buildCandidates_mem hsel
    obtain ⟨h1, h2, h3⟩ := h
    refine ⟨?_, ?_, ?_⟩
    · show (st.grid.setCell sel.2.1 dayCol (Cell.num rate)).rows = g0.rows
      rw [Grid.setCell_rows]; exact h1
    · show (st.grid.setCell sel.2.1 dayCol (Cell.num rate)).cols = g0.cols
      rw [Grid.setCell_cols]; exact h2
    · intro r c hout
      show (st.grid.setCell sel.2.1 dayCol (Cell.num rate)).cell r c = g0.cell r c
      rw [Grid.setCell_cell]
      split
      case isTrue hrc =>
        exfalso
        rcases hout with hout | hout
        · exact hout (by rw [hrc.1]; exact hstaff _ hmem)
        · exact hout (by rw [hrc.2]; exact hcol)
      case isFalse => exact h3 r c hout

theorem dayStep_gridFrame (g0 : Grid) (rowSet colSet : List Nat) (R : Roster)
    (dateCols : List Nat) (st : OState) (dayCol : Nat)
    (hA : ∀ nr ∈ R.nightGH1, nr.2 ∈ rowSet) (hB : ∀ nr ∈ R.careGH1, nr.2 ∈ rowSet)
    (hC : ∀ nr ∈ R.nightGH2, nr.2 ∈ rowSet) (hD : ∀ nr ∈ R.careGH2, nr.2 ∈ rowSet)
    (hcol : dayCol ∈ colSet) (h : GridFrame g0 rowSet colSet st.grid) :
    GridFrame g0 rowSet colSet (dayStep R dateCols st dayCol).grid := by
  unfold dayStep
  exact assignPhase_gridFrame _ _ _ _ _ _ _ _ _ _ hD hcol
    (assignPhase_gridFrame _ _ _ _ _ _ _ _ _ _ hC hcol
      (assignPhase_gridFrame _ _ _ _ _ _ _ _ _ _ hB hcol
        (assignPhase_gridFrame _ _ _ _ _ _ _ _ _ _ hA hcol h)))

theorem runSchedule_gridFrame (g : Grid) (dateCols : List Nat) :
    GridFrame g (staffRowsOf g) dateCols (runSchedule g dateCols).grid := by
  have hA : ∀ nr ∈ (rosterOf g).nightGH1, nr.2 ∈ staffRowsOf g := by
    intro nr hnr
    refine List.mem_map_of_mem _ ?_
    simp only [List.mem_append]
    exact Or.inl (Or.inl (Or.inl hnr))
  have hB : ∀ nr ∈ (rosterOf g).careGH1, nr.2 ∈ staffRowsOf g := by
    intro nr hnr
    refine List.mem_map_of_mem _ ?_
    simp only [List.mem_append]
    exact Or.inl (Or.inl (Or.inr hnr))
  have hC : ∀ nr ∈ (rosterOf g).nightGH2, nr.2 ∈ staffRowsOf g := by
    intro nr hnr
    refine List.mem_map_of_mem _ ?_
    simp only [List.mem_append]
    exact Or.inl (Or.inr hnr)
  have hD : ∀ nr ∈ (rosterOf g).careGH2, nr.2 ∈ staffRowsOf g := by
    intro nr hnr
    refine List.mem_map_of_mem _ ?_
    simp only [List.mem_append]
    exact Or.inr hnr
  unfold runSchedule
  refine foldl_preserve (fun st : OState => GridFrame g (staffRowsOf g) dateCols st.grid)
    _ _ ?_ _ ?_
  · intro st dayCol hmem hst
    exact dayStep_gridFrame g (staffRowsOf g) dateCols (rosterOf g) dateCols st dayCol
      hA hB hC hD hmem hst
  · refine clearPass_gridFrame g (staffRowsOf g) dateCols _ _ dateCols g ?_ ?_
      (fun c hc => hc) ⟨rfl, rfl, fun _ _ _ => rfl⟩
    · intro nr hnr
      rcases List.mem_append.mp hnr with hnr | hnr
      · exact hA nr hnr
      · exact hB nr hnr
    · intro nr hnr
      rcases List.mem_append.mp hnr with hnr | hnr
      · exact hC nr hnr
      · exact hD nr hnr

/-! ### Claim theorems -/

/-- C1, counterexample: on roster `G1` the staff name `X` appears both as GH1
night staff and GH1 care staff; the run records two assignments for `X` on
the same calendar day (day index 0): a 12.5-hour night slot in cell (9, 4)
and a 6-hour care slot in cell (4, 4).  The eligibility check only rejects an
assignment recorded for the *previous* day, not the same day, so the claimed
no-double-booking invariant fails. -/
theorem spec_c1_counterexample :
    resHist (optimizeShifts G1) "X" = [0, 0] ∧
    resLog (optimizeShifts G1) = [⟨"X", 9, 4, 0, 25 / 2⟩, ⟨"X", 4, 4, 0, 6⟩] := by
  with_unfolding_all decide

/-- C2, counterexample: on roster `G2` the staff `X` works the night slot of
day 1 (day index 0) and is then assigned the care slot of day 3 (day index
2), i.e. with their most recent night duty exactly 2 days earlier — the
relaxation-level-0 rest-interval rule the claim describes would have made `X`
ineligible, but no such rule exists in the eligibility check. -/
theorem spec_c2_counterexample :
    resHist (optimizeShifts G2) "X" = [0, 2] ∧
    resLog (optimizeShifts G2) = [⟨"X", 9, 4, 0, 25 / 2⟩, ⟨"X", 4, 6, 2, 6⟩] := by
  with_unfolding_all decide

/-- C2, amended: the only temporal rule the eligibility check enforces is the
consecutive-day rule — a staff member with an assignment recorded for the
immediately preceding day index is ineligible, whatever the roles involved;
no night-to-daycare rest interval and no relaxation levels exist. -/
theorem spec_c2_amended (g : Grid) (nm : String) (row dayCol : Nat) (dateCols : List Nat)
    (constraints : String → String) (hist : String → List Int)
    (h : ((dateCols.indexOf dayCol : Int) - 1) ∈ hist nm) :
    canAssignShift g nm row dayCol dateCols constraints hist = false := by
  have h1 : (hist nm).isEmpty = false := by
    rcases hh : hist nm with _ | ⟨a, t⟩
    · rw [hh] at h; cases h
    · rfl
  have h2 : (hist nm).contains ((dateCols.indexOf dayCol : Int) - 1) = true :=
    List.elem_iff.mpr h
  unfold canAssignShift
  split
  · rfl
  · split <;> simp [h1, h2] <;> exact fun _ => h

/-- C2, witness for the amended theorem: on roster `G3`, staff `N` with an
assignment at day index 0 is rejected for day column 5 (day index 1). -/
theorem spec_c2_amended_witness :
    ((([4, 5].indexOf 5 : Nat) : Int) - 1) ∈ [(0 : Int)] ∧
    canAssignShift G3 "N" 9 5 [4, 5] (fun _ => "") (fun _ => [(0 : Int)]) = false :=
  ⟨by decide, spec_c2_amended G3 "N" 9 5 [4, 5] (fun _ => "") (fun _ => [(0 : Int)]) (by decide)⟩

/-- C3, counterexample: the scheduler has no relaxation ladder.  On roster
`G3` the night slot of day 2 has an empty candidate set only because of the
consecutive-day rule (the rule relaxation level 1 is claimed to disable):
staff `N`'s cell is non-blocked and non-missing, the constraint allows day 2,
and the cap allows another 12.5 hours — yet the slot stays unfilled (`N`'s
history is only `[0]` and the cell keeps the cleared blank value) instead of
being retried at a higher relaxation level. -/
theorem spec_c3_counterexample :
    resHist (optimizeShifts G3) "N" = [0] ∧
    (resGrid (optimizeShifts G3) G3).cell 9 5 = Cell.str "" ∧
    ((resGrid (optimizeShifts G3) G3).cell 9 5).eqZero = false ∧
    ((resGrid (optimizeShifts G3) G3).cell 9 5).notna = true ∧
    canWorkOnDay (parseConstraints G3 (staffInRows G3 NIGHT_ROWS_GH1 "夜間") "N") 2
      (dayOfWeek 2) = true ∧
    (getStaffLimits G3 "N").isSome = true ∧
    overHours (resHist (optimizeShifts G3)) "N" + 25 / 2 ≤ (getStaffLimits G3 "N").getD 0 := by
  with_unfolding_all decide

/-- C3, amended: when the candidate set of a slot is empty the scheduler
simply makes no assignment for that slot and moves on — the state is left
completely unchanged; no relaxed re-evaluation of eligibility ever happens. -/
theorem spec_c3_amended (dateCols : List Nat) (lims : String → Option ℚ)
    (staff : List (String × Nat)) (constraints : String → String) (rate : ℚ)
    (dayCol : Nat) (st : OState)
    (h : buildCandidates st.grid staff constraints lims st.hist dayCol dateCols rate = []) :
    assignPhase dateCols lims staff constraints rate dayCol st = st := by
  unfold assignPhase
  rw [h]
  rfl

/-- C3, witness for the amended theorem: a slot with no staff at all has an
empty candidate set, and the phase leaves the state untouched. -/
theorem spec_c3_amended_witness :
    buildCandidates G1 [] (fun _ => "") (getStaffLimits G1) (fun _ => []) 4 [4] (25 / 2) = [] ∧
    assignPhase [4] (getStaffLimits G1) [] (fun _ => "") (25 / 2) 4 ⟨G1, fun _ => [], []⟩ =
      ⟨G1, fun _ => [], []⟩ :=
  ⟨rfl, spec_c3_amended [4] (getStaffLimits G1) [] (fun _ => "") (25 / 2) 4
    ⟨G1, fun _ => [], []⟩ rfl⟩

/-- C5, counterexample: on roster `G5`, at day 5 (day index 4) both night
staff of GH1 are candidates: `A` (cap 40, no hours yet, remaining capacity
40) and `B` (cap 60, 37 counted hours, remaining capacity 23).  The claimed
rule — minimize `cap − hours_worked` — selects `B`, but the code sorts by
`(cap, hours)` and assigns `A`, as the history and log show. -/
theorem spec_c5_counterexample :
    resHist (optimizeShifts G5) "A" = [4] ∧
    resHist (optimizeShifts G5) "B" = [0, 2] ∧
    resLog (optimizeShifts G5) =
      [⟨"B", 10, 4, 0, 25 / 2⟩, ⟨"B", 10, 6, 2, 25 / 2⟩, ⟨"A", 9, 8, 4, 25 / 2⟩] ∧
    getStaffLimits G5 "A" = some 40 ∧ getStaffLimits G5 "B" = some 60 ∧
    (60 : ℚ) - 37 / 2 *
        (((resHist (optimizeShifts G5) "B").filter fun e => decide (e < 4)).length : ℚ) <
      (40 : ℚ) - 37 / 2 *
        (((resHist (optimizeShifts G5) "A").filter fun e => decide (e < 4)).length : ℚ) := by
  with_unfolding_all decide

/-- C5, amended: when the candidate set is non-empty the scheduler selects a
candidate whose key `(limits.get(name, 1000), counted hours)` is
lexicographically least among all candidates (hour cap ascending first, then
accumulated counted hours ascending); the choice is deterministic, ties being
resolved by candidate-list position through the stable sort. -/
theorem spec_c5_amended (lims : String → Option ℚ) (cands : List (String × Nat × ℚ))
    (sel : String × Nat × ℚ) (h : selectCandidate lims cands = some sel) :
    sel ∈ cands ∧ ∀ x ∈ cands, candLe lims sel x = true :=
  ⟨selectCandidate_mem h, selectCandidate_min h⟩

/-- C5, witness for the amended theorem: between a candidate with cap 1000
(absent from the table) and hours 5 and one with hours 3, the hours-3
candidate is selected and is key-minimal. -/
theorem spec_c5_amended_witness :
    selectCandidate (fun _ => none) [("a", 1, (5 : ℚ)), ("b", 2, 3)] = some ("b", 2, 3) ∧
    ("b", 2, (3 : ℚ)) ∈ [("a", 1, (5 : ℚ)), ("b", 2, 3)] ∧
    ∀ x ∈ [("a", 1, (5 : ℚ)), ("b", 2, 3)],
      candLe (fun _ => none) ("b", 2, (3 : ℚ)) x = true :=
  ⟨by with_unfolding_all decide,
    (spec_c5_amended (fun _ => none) [("a", 1, (5 : ℚ)), ("b", 2, 3)] ("b", 2, 3)
      (by with_unfolding_all decide)).1,
    (spec_c5_amended (fun _ => none) [("a", 1, (5 : ℚ)), ("b", 2, 3)] ("b", 2, 3)
      (by with_unfolding_all decide)).2⟩

/-- C6: the greedy scheduling function is deterministic — its output does not
depend on the random stream at all, because the active `optimize_shifts` body
never draws from `random` (the randomized tie-break only exists in
`assign_shifts_for_group`, which the scheduling path never calls), so two
runs on the same roster give the same grid, history, log and totals. -/
theorem spec_c6_determinism (r₁ r₂ : Nat → ℚ) (g : Grid) :
    optimizeShiftsRand r₁ g = optimizeShiftsRand r₂ g := rfl

/-- C7, counterexample: the constraint `金曜のみ` ("Fridays only") names the
weekday set `{金}`, and day 1 falls on `月` (Monday), which is not in that
set — yet the evaluation returns `true`, because only a few hard-coded
weekday combinations are recognized.  The claimed `WeekdaySet` semantics
(`true` iff the day's weekday is in the set, for any set) therefore fails. -/
theorem spec_c7_counterexample :
    canWorkOnDay "金曜のみ" 1 (dayOfWeek 1) = true ∧ dayOfWeek 1 = "月" := by
  with_unfolding_all decide

/-- C7, amended: weekday-set semantics holds exactly for the hard-coded
patterns — `毎週日曜` (set `{日}`), a constraint containing both `火曜` and
`水曜` (set `{火, 水}`), `月水のみ` (set `{月, 水}`) and `木曜のみ` (set
`{木}`): for these the evaluation returns `true` iff the day's weekday is in
the set; weekday constraints outside these patterns are not restricted. -/
theorem spec_c7_amended (d : Int) (dow : String) :
    canWorkOnDay "毎週日曜" d dow = (dow == "日") ∧
    canWorkOnDay "火曜・水曜" d dow = (dow == "火" || dow == "水") ∧
    canWorkOnDay "月水のみ" d dow = (dow == "月" || dow == "水") ∧
    canWorkOnDay "木曜のみ" d dow = (dow == "木") :=
  ⟨rfl, rfl, rfl, rfl⟩

/-- C4: in every produced assignment set, every staff member appearing in it
has an entry in the hour-limits table and the sum of the hours of their
assignments — 12.5 per night slot, 6 per care slot, as recorded in the log —
is at most that limit.  The guard compares the cap against an 18.5-per-entry
overcount of the hours, so the real total never exceeds the cap. -/
theorem spec_c4_cap_invariant (g : Grid) (nm : String)
    (h : ∃ e ∈ resLog (optimizeShifts g), e.name = nm) :
    ∃ q, getStaffLimits g nm = some q ∧ actualHours (resLog (optimizeShifts g)) nm ≤ q := by
  unfold optimizeShifts resLog at h ⊢
  by_cases hd : (detectDateColumns g).isEmpty = true
  · rw [if_pos hd] at h
    obtain ⟨e, he, -⟩ := h
    cases he
  · rw [if_neg hd] at h ⊢
    exact ((runSchedule_invCap g (detectDateColumns g)) nm).2.1 h

/-- C4, witness: on roster `G1` the staff `X` appears in the produced
assignment set and their assigned hours stay within their cap. -/
theorem spec_c4_witness :
    (∃ e ∈ resLog (optimizeShifts G1), e.name = "X") ∧
    ∃ q, getStaffLimits G1 "X" = some q ∧ actualHours (resLog (optimizeShifts G1)) "X" ≤ q :=
  ⟨by with_unfolding_all decide, spec_c4_cap_invariant G1 "X" (by with_unfolding_all decide)⟩

/-- C9: a staff member whose name has no entry in the hour-limits table
(rows 36–47 of the grid) is never assigned to any slot — their assignment
history stays empty and no log entry carries their name — because membership
in the limits table is checked before any selection. -/
theorem spec_c9_limits_required (g : Grid) (nm : String) (h : getStaffLimits g nm = none) :
    resHist (optimizeShifts g) nm = [] ∧ ∀ e ∈ resLog (optimizeShifts g), e.name ≠ nm := by
  unfold optimizeShifts resHist resLog
  by_cases hd : (detectDateColumns g).isEmpty = true
  · rw [if_pos hd]
    exact ⟨rfl, fun e he => absurd he (List.not_mem_nil e)⟩
  · rw [if_neg hd]
    exact ((runSchedule_invCap g (detectDateColumns g)) nm).2.2 h

/-- C9, witness: on roster `G9` the night staff `Y` passes every other
eligibility condition but has no limits entry, and indeed receives no
assignment. -/
theorem spec_c9_witness :
    getStaffLimits G9 "Y" = none ∧
    (resHist (optimizeShifts G9) "Y" = [] ∧ ∀ e ∈ resLog (optimizeShifts G9), e.name ≠ "Y") :=
  ⟨by with_unfolding_all decide, spec_c9_limits_required G9 "Y" (by with_unfolding_all decide)⟩

/-- C8: no assignment is ever produced for a (staff, day) cell whose source
value equals numeric zero: the cell keeps its original value in the output
grid (the clearing loop skips it and no selection writes into it), and no
logged assignment occupies that cell. -/
theorem spec_c8_fixed_block (g : Grid) (r c : Nat) (h : (g.cell r c).eqZero = true) :
    (resGrid (optimizeShifts g) g).cell r c = g.cell r c ∧
    ∀ e ∈ resLog (optimizeShifts g), e.row ≠ r ∨ e.col ≠ c := by
  unfold optimizeShifts resGrid resLog
  by_cases hd : (detectDateColumns g).isEmpty = true
  · rw [if_pos hd]
    exact ⟨rfl, fun e he => absurd he (List.not_mem_nil e)⟩
  · rw [if_neg hd]
    obtain ⟨hb, hl⟩ := runSchedule_invBlock g (detectDateColumns g)
    refine ⟨hb r c h, ?_⟩
    intro e he
    by_contra hcon
    push_neg at hcon
    obtain ⟨hr, hc⟩ := hcon
    have := hl e he
    rw [hr, hc, h] at this
    cases this

/-- C8, witness: on roster `G2` the cell (9, 5) holds 0 and stays 0, and no
assignment is logged into it. -/
theorem spec_c8_witness :
    (G2.cell 9 5).eqZero = true ∧
    ((resGrid (optimizeShifts G2) G2).cell 9 5 = G2.cell 9 5 ∧
      ∀ e ∈ resLog (optimizeShifts G2), e.row ≠ 9 ∨ e.col ≠ 5) :=
  ⟨by with_unfolding_all decide, spec_c8_fixed_block G2 9 5 (by with_unfolding_all decide)⟩

/-- C10: the scheduler modifies only cells at the intersection of a
recognized staff row (a row of one of the four extracted role/site lists)
and a detected date column; every cell outside that set, and the grid
dimensions, are unchanged in the returned grid. -/
theorem spec_c10_frame (g : Grid) (r c : Nat)
    (h : r ∉ staffRowsOf g ∨ c ∉ detectDateColumns g) :
    (resGrid (optimizeShifts g) g).cell r c = g.cell r c ∧
    (resGrid (optimizeShifts g) g).rows = g.rows ∧
    (resGrid (optimizeShifts g) g).cols = g.cols := by
  unfold optimizeShifts resGrid
  by_cases hd : (detectDateColumns g).isEmpty = true
  · rw [if_pos hd]
    exact ⟨rfl, rfl, rfl⟩
  · rw [if_neg hd]
    obtain ⟨h1, h2, h3⟩ := runSchedule_gridFrame g (detectDateColumns g)
    exact ⟨h3 r c h, h1, h2⟩

theorem indexOf_pre (pre : List Nat) (a : Nat) (suf : List Nat) (h : a ∉ pre) :
    (pre ++ a :: suf).indexOf a = pre.length := by
  rw [List.indexOf_append_of_not_mem h]
  simp [List.indexOf_cons_self]

theorem assignPhase_hist (dateCols : List Nat) (lims : String → Option ℚ)
    (staff : List (String × Nat)) (constraints : String → String) (rate : ℚ)
    (dayCol : Nat) (st : OState) (nm : String) :
    (assignPhase dateCols lims staff constraints rate dayCol st).hist nm = st.hist nm ∨
    ((assignPhase dateCols lims staff constraints rate dayCol st).hist nm
        = st.hist nm ++ [(dateCols.indexOf dayCol : Int)] ∧ nm ∈ namesOf staff) := by
  rcases assignPhase_cases dateCols lims staff constraints rate dayCol st with heq | ⟨sel, hsel, heq⟩
  · rw [heq]; exact Or.inl rfl
  · rw [heq]
    by_cases hnm : nm = sel.1
    · right
      constructor
      · show (if nm = sel.1 then st.hist nm ++ [(dateCols.indexOf dayCol : Int)] else st.hist nm)
            = st.hist nm ++ [(dateCols.indexOf dayCol : Int)]
        rw [if_pos hnm]
      · have hmem := (buildCandidates_mem hsel).1
        rw [hnm]
        exact List.mem_map_of_mem _ hmem
    · left
      show (if nm = sel.1 then st.hist nm ++ [(dateCols.indexOf dayCol : Int)] else st.hist nm)
          = st.hist nm
      rw [if_neg hnm]

theorem dayStep_hist (R : Roster) (dateCols : List Nat) (st : OState) (dayCol : Nat) (nm : String)
    (h12 : ∀ x ∈ namesOf R.nightGH1, x ∉ namesOf R.careGH1)
    (h13 : ∀ x ∈ namesOf R.nightGH1, x ∉ namesOf R.nightGH2)
    (h14 : ∀ x ∈ namesOf R.nightGH1, x ∉ namesOf R.careGH2)
    (h23 : ∀ x ∈ namesOf R.careGH1, x ∉ namesOf R.nightGH2)
    (h24 : ∀ x ∈ namesOf R.careGH1, x ∉ namesOf R.careGH2)
    (h34 : ∀ x ∈ namesOf R.nightGH2, x ∉ namesOf R.careGH2) :
    (dayStep R dateCols st dayCol).hist nm = st.hist nm ∨
    (dayStep R dateCols st dayCol).hist nm
      = st.hist nm ++ [(dateCols.indexOf dayCol : Int)] := by
  have p1 := assignPhase_hist dateCols R.lims R.nightGH1 R.nconsGH1 ((25 : ℚ) / 2) dayCol st nm
  have p2 := assignPhase_hist dateCols R.lims R.careGH1 R.cconsGH1 6 dayCol
    (assignPhase dateCols R.lims R.nightGH1 R.nconsGH1 ((25 : ℚ) / 2) dayCol st) nm
  have p3 := assignPhase_hist dateCols R.lims R.nightGH2 R.nconsGH2 ((25 : ℚ) / 2) dayCol
    (assignPhase dateCols R.lims R.careGH1 R.cconsGH1 6 dayCol
      (assignPhase dateCols R.lims R.nightGH1 R.nconsGH1 ((25 : ℚ) / 2) dayCol st)) nm
  have p4 := assignPhase_hist dateCols R.lims R.careGH2 R.cconsGH2 6 dayCol
    (assignPhase dateCols R.lims R.nightGH2 R.nconsGH2 ((25 : ℚ) / 2) dayCol
      (assignPhase dateCols R.lims R.careGH1 R.cconsGH1 6 dayCol
        (assignPhase dateCols R.lims R.nightGH1 R.nconsGH1 ((25 : ℚ) / 2) dayCol st))) nm
  unfold dayStep
  rcases p4 with e4 | ⟨e4, m4⟩ <;> rcases p3 with e3 | ⟨e3, m3⟩ <;>
    rcases p2 with e2 | ⟨e2, m2⟩ <;> rcases p1 with e1 | ⟨e1, m1⟩ <;>
    rw [e4, e3, e2, e1] <;>
    first
      | exact absurd m2 (h12 _ m1)
      | exact absurd m3 (h13 _ m1)
      | exact absurd m3 (h23 _ m2)
      | exact absurd m4 (h14 _ m1)
      | exact absurd m4 (h24 _ m2)
      | exact absurd m4 (h34 _ m3)
      | exact Or.inl rfl
      | exact Or.inr rfl

theorem histFold_count (R : Roster) (dateCols : List Nat) (hnd : dateCols.Nodup)
    (h12 : ∀ x ∈ namesOf R.nightGH1, x ∉ namesOf R.careGH1)
    (h13 : ∀ x ∈ namesOf R.nightGH1, x ∉ namesOf R.nightGH2)
    (h14 : ∀ x ∈ namesOf R.nightGH1, x ∉ namesOf R.careGH2)
    (h23 : ∀ x ∈ namesOf R.careGH1, x ∉ namesOf R.nightGH2)
    (h24 : ∀ x ∈ namesOf R.careGH1, x ∉ namesOf R.careGH2)
    (h34 : ∀ x ∈ namesOf R.nightGH2, x ∉ namesOf R.careGH2) :
    ∀ (suf pre : List Nat) (st : OState),
      dateCols = pre ++ suf →
      (∀ nm', (∀ e ∈ st.hist nm', e < (pre.length : Int)) ∧
        ∀ d : Int, (st.hist nm').count d ≤ 1) →
      ∀ nm', (∀ e ∈ (suf.foldl (fun s dc => dayStep R dateCols s dc) st).hist nm',
            e < (dateCols.length : Int)) ∧
        ∀ d : Int, ((suf.foldl (fun s dc => dayStep R dateCols s dc) st).hist nm').count d ≤ 1 := by
  intro suf
  induction suf with
  | nil =>
    intro pre st hsplit hinv nm'
    rw [List.foldl_nil]
    have hpre : pre.length = dateCols.length := by rw [hsplit]; simp
    obtain ⟨ha, hb⟩ := hinv nm'
    exact ⟨fun e he => hpre ▸ ha e he, hb⟩
  | cons dc suf' ih =>
    intro pre st hsplit hinv nm'
    rw [List.foldl_cons]
    have hdc_pre : dc ∉ pre := by
      intro hmem
      have hnd' := hnd
      rw [hsplit] at hnd'
      exact (List.disjoint_of_nodup_append hnd') hmem (List.mem_cons_self _ _)
    have hidx : ((dateCols.indexOf dc : Nat) : Int) = (pre.length : Int) := by
      rw [hsplit]
      exact_mod_cast indexOf_pre pre dc suf' hdc_pre
    have hinv' : ∀ nm'', (∀ e ∈ (dayStep R dateCols st dc).hist nm'',
          e < ((pre ++ [dc]).length : Int)) ∧
        ∀ d : Int, ((dayStep R dateCols st dc).hist nm'').count d ≤ 1 := by
      intro nm''
      obtain ⟨ha, hb⟩ := hinv nm''
      have hlen : ((pre ++ [dc]).length : Int) = (pre.length : Int) + 1 := by
        simp
      rcases dayStep_hist R dateCols st dc nm'' h12 h13 h14 h23 h24 h34 with e | e
      · rw [e]
        constructor
        · intro el hel
          have hel' := ha el hel
          rw [hlen]
          omega
        · exact hb
      · rw [e, hidx]
        constructor
        · intro el hel
          rw [hlen]
          rcases List.mem_append.mp hel with hel | hel
          · have hel' := ha el hel
            omega
          · rw [List.mem_singleton] at hel
            rw [hel]
            omega
        · intro d
          rw [List.count_append]
          by_cases hdq : d = (pre.length : Int)
          · have hzero : (st.hist nm'').count d = 0 := by
              rw [List.count_eq_zero]
              intro hdin
              have hdlt := ha d hdin
              rw [hdq] at hdlt
              exact absurd hdlt (lt_irrefl _)
            rw [hzero, hdq]
            simp
          · have hone : List.count d [(pre.length : Int)] = 0 := by
              rw [List.count_eq_zero]
              simp only [List.mem_singleton]
              exact hdq
            rw [hone, Nat.add_zero]
            exact hb d
    have hsplit' : dateCols = (pre ++ [dc]) ++ suf' := by rw [hsplit]; simp
    exact ih (pre ++ [dc]) (dayStep R dateCols st dc) hsplit' hinv' nm'

theorem listsDisjoint_spec {a b : List String} (h : listsDisjoint a b = true) :
    ∀ x ∈ a, x ∉ b := by
  intro x hx hxb
  unfold listsDisjoint at h
  rw [List.all_eq_true] at h
  have h' := h x hx
  rw [Bool.not_eq_true'] at h'
  have h2 : b.contains x = true := List.elem_iff.mpr hxb
  rw [h2] at h'
  cases h'

theorem detectDateColumns_nodup (g : Grid) : (detectDateColumns g).Nodup := by
  unfold detectDateColumns
  exact List.Nodup.filter _ (List.nodup_range' _ _)

/-- C1, amended: provided each staff name occurs in at most one of the four
role/site lists, every staff member has at most one assignment per calendar
day in the produced schedule.  (Without that proviso the invariant fails, as
the counterexample shows: the eligibility check rejects only an assignment
recorded for the immediately preceding day, never the same day.) -/
theorem spec_c1_amended (g : Grid) (hd : namesDisjoint g = true) (nm : String) (d : Int) :
    (resHist (optimizeShifts g) nm).count d ≤ 1 := by
  unfold namesDisjoint at hd
  simp only [Bool.and_eq_true] at hd
  obtain ⟨⟨⟨⟨⟨hd1, hd2⟩, hd3⟩, hd4⟩, hd5⟩, hd6⟩ := hd
  unfold optimizeShifts resHist
  by_cases he : (detectDateColumns g).isEmpty = true
  · rw [if_pos he]
    simp
  · rw [if_neg he]
    have hmain := histFold_count (rosterOf g) (detectDateColumns g) (detectDateColumns_nodup g)
      (listsDisjoint_spec hd1) (listsDisjoint_spec hd2) (listsDisjoint_spec hd3)
      (listsDisjoint_spec hd4) (listsDisjoint_spec hd5) (listsDisjoint_spec hd6)
      (detectDateColumns g) []
      ⟨clearPass ((rosterOf g).nightGH1 ++ (rosterOf g).careGH1)
          ((rosterOf g).nightGH2 ++ (rosterOf g).careGH2) (detectDateColumns g) g,
        fun _ => [], []⟩
      rfl
      (fun nm' => ⟨fun e he' => absurd he' (List.not_mem_nil e), fun d' => by simp⟩)
      nm
    exact hmain.2 d

/-- C1, witness for the amended theorem: the staff lists of roster `G5` have
pairwise disjoint names, and `B` is assigned at most once on day index 0. -/
theorem spec_c1_amended_witness :
    namesDisjoint G5 = true ∧ (resHist (optimizeShifts G5) "B").count 0 ≤ 1 :=
  ⟨by with_unfolding_all decide, spec_c1_amended G5 (by with_unfolding_all decide) "B" 0⟩

/-- C10, witness: the header cell (0, 0) of roster `G1` is outside the staff
rows and is untouched, and the dimensions are preserved. -/
theorem spec_c10_witness :
    ((0 : Nat) ∉ staffRowsOf G1 ∨ (0 : Nat) ∉ detectDateColumns G1) ∧
    ((resGrid (optimizeShifts G1) G1).cell 0 0 = G1.cell 0 0 ∧
      (resGrid (optimizeShifts G1) G1).rows = G1.rows ∧
      (resGrid (optimizeShifts G1) G1).cols = G1.cols) :=
  ⟨by with_unfolding_all decide, spec_c10_frame G1 0 0 (by with_unfolding_all decide)⟩

end ShiftAI
